import Mathlib

/-!
# A formal model of `dogpile.cache`'s `CacheRegion`

This file is a shallow embedding of `dogpile/cache/region.py` (the only
source file of the repository).  Conventions used throughout:

* `time.time()` is modelled by an explicit clock stream: the world state
  carries a `clock : Nat → Time` (`Time := ℚ`) together with a `tick`
  counter; every call of `time.time()` in the Python code corresponds to
  one `timeTick` here, returning `clock tick` and advancing the counter.
* Python's `NO_VALUE` sentinel is `Option.none`; a present `CachedValue`
  is `Option.some`.
* Python exceptions are modelled with `Except`: every fallible operation
  returns `Except RegionError β × World σ` — the world is returned in the
  error case as well, because raising an exception in Python does not roll
  back state.
* Backend interactions are recorded in an event log (`Event`) so that
  "performs no backend operation" and "holds mutex X" are observable.
* The model is single-caller: a mutex is always free when acquired, so
  non-blocking acquisition succeeds.  The `async_creation_runner` of the
  single-key path is not configured (its default), matching the claims
  under study.
* The dogpile `Lock` itself lives in `dogpile/lock.py`, which is not part
  of the given sources; it is modelled from the specification (§4.F),
  see `dogpileLock` below.
-/

abbrev Time := ℚ

/-- `value_version` from region.py: the schema version stamped into every
envelope's metadata. -/
def value_version : Int := 2

/-- The metadata dict `{"ct": ..., "v": ...}` generated by `_gen_metadata`. -/
structure Metadata where
  ct : Time
  v : Int
deriving DecidableEq, Repr

/-- `CachedValue`: the envelope persisted in the backend (payload + metadata). -/
structure CachedValue (α : Type) where
  payload : α
  metadata : Metadata
deriving DecidableEq, Repr

/-- `DefaultInvalidationStrategy` state: `_is_hard_invalidated` (None /
True / False) and `_invalidated` (None or the barrier timestamp). -/
structure DefaultInvalidationStrategy where
  is_hard_state : Option Bool
  invalidated : Option Time
deriving DecidableEq, Repr

/-- `DefaultInvalidationStrategy.__init__`: both attributes start as None. -/
def DefaultInvalidationStrategy.init : DefaultInvalidationStrategy := ⟨none, none⟩

/-- `invalidate(hard)`: overwrite the mode with `bool(hard)` and the barrier
with the current time (the `time.time()` reading is passed explicitly). -/
def DefaultInvalidationStrategy.invalidate (_s : DefaultInvalidationStrategy)
    (hard : Bool) (now : Time) : DefaultInvalidationStrategy :=
  ⟨some hard, some now⟩

/-- `is_invalidated(timestamp)`: the barrier is set and `timestamp` precedes it. -/
def DefaultInvalidationStrategy.is_invalidated (s : DefaultInvalidationStrategy)
    (timestamp : Time) : Bool :=
  match s.invalidated with
  | none => false
  | some t => decide (timestamp < t)

/-- `was_hard_invalidated()`: `self._is_hard_invalidated is True`. -/
def DefaultInvalidationStrategy.was_hard_invalidated
    (s : DefaultInvalidationStrategy) : Bool :=
  decide (s.is_hard_state = some true)

/-- `is_hard_invalidated(timestamp)`: hard mode and the timestamp is behind
the barrier. -/
def DefaultInvalidationStrategy.is_hard_invalidated
    (s : DefaultInvalidationStrategy) (timestamp : Time) : Bool :=
  s.was_hard_invalidated && s.is_invalidated timestamp

/-- `was_soft_invalidated()`: `self._is_hard_invalidated is False`. -/
def DefaultInvalidationStrategy.was_soft_invalidated
    (s : DefaultInvalidationStrategy) : Bool :=
  decide (s.is_hard_state = some false)

/-- `is_soft_invalidated(timestamp)`: soft mode and the timestamp is behind
the barrier. -/
def DefaultInvalidationStrategy.is_soft_invalidated
    (s : DefaultInvalidationStrategy) (timestamp : Time) : Bool :=
  s.was_soft_invalidated && s.is_invalidated timestamp

/-- Observable interactions with the backend and with the per-key mutexes
of the lock registry.  A mutex is identified by the key it is registered
under in the `NameRegistry` (one mutex per registry key). -/
inductive Event
  | bget (k : String)
  | bgetMulti (ks : List String)
  | bset (k : String)
  | bsetMulti (ks : List String)
  | bdelete (k : String)
  | bdeleteMulti (ks : List String)
  | macquire (k : String)
  | mrelease (k : String)
deriving DecidableEq, Repr

/-- The world a region operates on: the backend's key/value store (slot
type `σ` is `CachedValue α` for object backends, serialized bytes for
byte-oriented ones), the clock stream with its tick counter, the set of
currently held mutexes, and the event log. -/
structure World (σ : Type) where
  store : List (String × σ)
  tick : Nat
  clock : Nat → Time
  lockedKeys : List String
  events : List Event

/-- One `time.time()` call: read the clock stream and advance the counter. -/
def timeTick {σ : Type} (w : World σ) : Time × World σ :=
  (w.clock w.tick, { w with tick := w.tick + 1 })

/-- First-match association lookup (Python `dict` access / backend fetch). -/
def lookupKey {σ : Type} : List (String × σ) → String → Option σ
  | [], _ => none
  | (k, v) :: rest, key => if k = key then some v else lookupKey rest key

/-- Insert-or-replace for the backend store (Python `dict` set). -/
def setKey {σ : Type} : List (String × σ) → String → σ → List (String × σ)
  | [], key, v => [(key, v)]
  | (k, u) :: rest, key, v =>
    if k = key then (key, v) :: rest else (k, u) :: setKey rest key v

def backendGet {σ : Type} (w : World σ) (k : String) : Option σ × World σ :=
  (lookupKey w.store k, { w with events := w.events ++ [Event.bget k] })

def backendGetMulti {σ : Type} (w : World σ) (ks : List String) :
    List (Option σ) × World σ :=
  (ks.map (lookupKey w.store), { w with events := w.events ++ [Event.bgetMulti ks] })

def backendSet {σ : Type} (w : World σ) (k : String) (v : σ) : World σ :=
  { w with store := setKey w.store k v, events := w.events ++ [Event.bset k] }

def backendSetMulti {σ : Type} (w : World σ) (m : List (String × σ)) : World σ :=
  { w with
    store := m.foldl (fun st kv => setKey st kv.1 kv.2) w.store
    events := w.events ++ [Event.bsetMulti (m.map (·.1))] }

def backendDeleteMulti {σ : Type} (w : World σ) (ks : List String) : World σ :=
  { w with
    store := w.store.filter (fun kv => !(ks.contains kv.1))
    events := w.events ++ [Event.bdeleteMulti ks] }

def mutexAcquire {σ : Type} (w : World σ) (k : String) : World σ :=
  { w with lockedKeys := k :: w.lockedKeys, events := w.events ++ [Event.macquire k] }

def mutexRelease {σ : Type} (w : World σ) (k : String) : World σ :=
  { w with lockedKeys := w.lockedKeys.erase k, events := w.events ++ [Event.mrelease k] }

/-- `mutex.locked()` for the mutex registered under registry key `k`. -/
def mutexLocked {σ : Type} (w : World σ) (k : String) : Bool :=
  w.lockedKeys.contains k

/-- The subset of `CacheRegion` state the claims depend on, for a region
whose backend stores envelope objects directly (no serializer configured).
`expiration_time` is the value set by `configure`; `key_mangler` is the
optional key pre-transform; `region_invalidator` is the default strategy's
state. -/
structure Region (α : Type) where
  expiration_time : Option Time
  key_mangler : Option (String → String)
  region_invalidator : DefaultInvalidationStrategy

/-- `if self.key_mangler: key = self.key_mangler(key)`. -/
def mangleOpt (km : Option (String → String)) (key : String) : String :=
  match km with
  | some f => f key
  | none => key

def Region.mangleKey {α : Type} (r : Region α) (key : String) : String :=
  mangleOpt r.key_mangler key

/-- The expiration comparison of `_unexpired_value_fn`'s inner `value_fn`:
`expiration_time is not None and current_time - ct > expiration_time`. -/
def expCheck (expiration_time : Option Time) (current_time ct : Time) : Bool :=
  match expiration_time with
  | none => false
  | some e => decide (current_time - ct > e)

/-- `_unexpired_value_fn(expiration_time, ignore_expiration)`: returns the
filter applied to a fetched value.  When not ignoring expiration it
defaults the per-call expiration to the region's and captures one
`time.time()` reading. -/
def Region.unexpired_value_fn {α : Type} (r : Region α) (expiration_time : Option Time)
    (ignore_expiration : Bool) (w : World (CachedValue α)) :
    (Option (CachedValue α) → Option (CachedValue α)) × World (CachedValue α) :=
  if ignore_expiration then (id, w)
  else
    let expiration_time := match expiration_time with
      | none => r.expiration_time
      | some e => some e
    let (current_time, w) := timeTick w
    (fun value =>
      match value with
      | none => none
      | some v =>
        if expCheck expiration_time current_time v.metadata.ct then none
        else if r.region_invalidator.is_invalidated v.metadata.ct then none
        else some v, w)

/-- `_get_cache_value`: mangle the key, fetch from the backend, filter
through `_unexpired_value_fn`. -/
def Region.get_cache_value {α : Type} (r : Region α) (w : World (CachedValue α))
    (key : String) (expiration_time : Option Time) (ignore_expiration : Bool) :
    Option (CachedValue α) × World (CachedValue α) :=
  let key := r.mangleKey key
  let (value, w) := backendGet w key
  let (value_fn, w) := r.unexpired_value_fn expiration_time ignore_expiration w
  (value_fn value, w)

/-- `get(key, expiration_time, ignore_expiration)`: the payload of the
filtered cache value, or `NO_VALUE` (`none`). -/
def Region.get {α : Type} (r : Region α) (w : World (CachedValue α)) (key : String)
    (expiration_time : Option Time) (ignore_expiration : Bool) :
    Option α × World (CachedValue α) :=
  let (value, w) := r.get_cache_value w key expiration_time ignore_expiration
  (value.map (·.payload), w)

/-- `get_multi(keys, ...)`: `[]` for an empty key list without touching the
backend; otherwise one `get_multi` backend fetch filtered per value. -/
def Region.get_multi {α : Type} (r : Region α) (w : World (CachedValue α))
    (keys : List String) (expiration_time : Option Time) (ignore_expiration : Bool) :
    List (Option α) × World (CachedValue α) :=
  if keys.isEmpty then ([], w)
  else
    let keys := keys.map r.mangleKey
    let (backend_values, w) := backendGetMulti w keys
    let (value_fn, w) := r.unexpired_value_fn expiration_time ignore_expiration w
    (backend_values.map (fun v => (value_fn v).map (·.payload)), w)

/-- `set_multi(mapping)`: empty mapping is a no-op before any backend or
clock interaction; otherwise one `_gen_metadata()` record (a single
`time.time()` reading) is shared by every envelope of the write. -/
def Region.set_multi {α : Type} (r : Region α) (w : World (CachedValue α))
    (mapping : List (String × α)) : World (CachedValue α) :=
  if mapping.isEmpty then w
  else
    let (t, w) := timeTick w
    let metadata : Metadata := ⟨t, value_version⟩
    backendSetMulti w
      (mapping.map (fun kv => (r.mangleKey kv.1, CachedValue.mk kv.2 metadata)))

/-- `delete_multi(keys)`: mangle the keys and call the backend's
`delete_multi` — there is no empty-input early return. -/
def Region.delete_multi {α : Type} (r : Region α) (w : World (CachedValue α))
    (keys : List String) : World (CachedValue α) :=
  let keys := match r.key_mangler with
    | some km => keys.map km
    | none => keys
  backendDeleteMulti w keys

/-- `key_is_locked(key)`: `locked()` of `self._mutex(key)` — note the raw,
unmangled key is used for the registry lookup. -/
def Region.key_is_locked {α : Type} (_r : Region α) (w : World (CachedValue α))
    (key : String) : Bool :=
  mutexLocked w key

/-- `_is_cache_miss(value, orig_key)`: absent, or schema version mismatch,
or hard-invalidated. -/
def Region.is_cache_miss {α : Type} (r : Region α) (value : Option (CachedValue α)) : Bool :=
  match value with
  | none => true
  | some v =>
    if v.metadata.v ≠ value_version then true
    else if r.region_invalidator.is_hard_invalidated v.metadata.ct then true
    else false

/-- The effective expiration time of `get_or_create` /
`get_or_create_multi`: the per-call value defaulting to the region's
configured one, with `-1` then mapped to `None`. -/
def Region.effectiveExpiration {α : Type} (r : Region α)
    (expiration_time : Option Time) : Option Time :=
  let e := match expiration_time with
    | none => r.expiration_time
    | some t => some t
  if e = some (-1) then none else e

/-- The exception kinds the model distinguishes.  `needRegeneration` is the
internal signal consumed by the dogpile lock; `dogpileCache` is the
`DogpileCacheException` for soft invalidation without expiration;
`jsonLoads` models a `json.loads` failure; `deserializerRaised` is any
deserializer exception other than `CantDeserializeException`. -/
inductive RegionError
  | needRegeneration
  | dogpileCache (msg : String)
  | jsonLoads
  | deserializerRaised (msg : String)
deriving DecidableEq, Repr

def softInvalidationMsg : String :=
  "Non-None expiration time required for soft invalidation"

/-- Modelled from the spec: step 2 of the dogpile lock (§4.F), freshness of
a value whose creation time is `ct` (`ct ≤ 0` meaning "no value",
infinitely old).  With a null expiration time a present value is always
fresh without consulting the clock; otherwise one `time.time()` reading is
compared against the expiration. -/
def lockFresh {σ : Type} (expiration_time : Option Time) (ct : Time)
    (w : World σ) : Bool × World σ :=
  if ct ≤ 0 then (false, w)
  else
    match expiration_time with
    | none => (true, w)
    | some e =>
      let (now, w) := timeTick w
      (decide (now - ct < e), w)

/-- Modelled from the spec: step 3 of the dogpile lock (§4.F) on the stale
path, for a single caller with no async creator: the non-blocking acquire
succeeds, `gen_value` runs, and the mutex is released on every exit path
(§5, resource scoping). -/
def dogpileGen {σ α : Type} (mutexKey : String)
    (gen_value : World σ → Except RegionError (α × Time) × World σ)
    (w : World σ) : Except RegionError α × World σ :=
  let w := mutexAcquire w mutexKey
  match gen_value w with
  | (Except.ok (p, _ct), w) => (Except.ok p, mutexRelease w mutexKey)
  | (Except.error e, w) => (Except.error e, mutexRelease w mutexKey)

/-- Modelled from the spec: the dogpile lock algorithm of §4.F
(`dogpile/lock.py` is not among the given sources).  Single-caller model:
the mutex is free, so the "not acquired" branches do not arise, and no
async creator is configured on the single-key path.  `get_value` raising
`NeedRegenerationException` is consumed (treat `ct` as 0, i.e. stale);
any other exception propagates to the caller. -/
def dogpileLock {σ α : Type} (mutexKey : String) (expiration_time : Option Time)
    (get_value gen_value : World σ → Except RegionError (α × Time) × World σ)
    (w : World σ) : Except RegionError α × World σ :=
  match get_value w with
  | (Except.error RegionError.needRegeneration, w) => dogpileGen mutexKey gen_value w
  | (Except.error e, w) => (Except.error e, w)
  | (Except.ok (v, ct), w) =>
    let (fresh, w) := lockFresh expiration_time ct w
    if fresh then (Except.ok v, w)
    else dogpileGen mutexKey gen_value w

/-- The body of `get_or_create`'s `get_value` closure after the backend
fetch (shared between the object and the serialized pipelines): a cache
miss raises `NeedRegenerationException`; a soft-invalidated envelope with
a null effective expiration raises `DogpileCacheException`, otherwise its
`ct` is rewritten to `time.time() - expiration_time - 0.0001`. -/
def getValueCore {σ α : Type} (inv : DefaultInvalidationStrategy)
    (miss : Option (CachedValue α) → Bool) (eff : Option Time)
    (value : Option (CachedValue α)) (w : World σ) :
    Except RegionError (α × Time) × World σ :=
  if miss value then (Except.error RegionError.needRegeneration, w)
  else
    match value with
    | none => (Except.error RegionError.needRegeneration, w)
    | some cv =>
      let ct := cv.metadata.ct
      if inv.is_soft_invalidated ct then
        match eff with
        | none => (Except.error (RegionError.dogpileCache softInvalidationMsg), w)
        | some e =>
          let (t, w) := timeTick w
          (Except.ok (cv.payload, t - e - 1 / 10000), w)
      else (Except.ok (cv.payload, ct), w)

/-- `get_or_create`'s `get_value` closure for an object backend: one
backend `get`, then `getValueCore`. -/
def Region.getValueFn {α : Type} (r : Region α) (eff : Option Time) (key : String)
    (w : World (CachedValue α)) :
    Except RegionError (α × Time) × World (CachedValue α) :=
  let (value, w) := backendGet w key
  getValueCore r.region_invalidator r.is_cache_miss eff value w

/-- Whether `gen_value` persists the created value:
`not should_cache_fn or should_cache_fn(created_value)`. -/
def shouldCache {α : Type} (should_cache_fn : Option (α → Bool)) (created : α) : Bool :=
  match should_cache_fn with
  | none => true
  | some f => f created

/-- `get_or_create`'s `gen_value` closure for an object backend: time the
creator (`_log_time` takes a reading before and after), wrap the created
value in a fresh envelope (`_value` takes its own `time.time()` reading in
`_gen_metadata`), refuse soft invalidation without an expiration time,
persist unless `should_cache_fn` rejects the value, and return
`(payload, ct)`. -/
def Region.genValueFn {α : Type} (r : Region α) (eff : Option Time) (key : String)
    (creator : Unit → α) (should_cache_fn : Option (α → Bool))
    (w : World (CachedValue α)) :
    Except RegionError (α × Time) × World (CachedValue α) :=
  let (_start, w) := timeTick w
  let created := creator ()
  let (_finish, w) := timeTick w
  let (ct, w) := timeTick w
  let value : CachedValue α := ⟨created, ⟨ct, value_version⟩⟩
  if eff = none ∧ r.region_invalidator.was_soft_invalidated = true then
    (Except.error (RegionError.dogpileCache softInvalidationMsg), w)
  else
    let w := if shouldCache should_cache_fn created then backendSet w key value else w
    (Except.ok (value.payload, value.metadata.ct), w)

/-- `get_or_create(key, creator, expiration_time, should_cache_fn)`: mangle
the key, compute the effective expiration (`None` → region default,
`-1` → `None`), and run the dogpile lock on the mutex registered under the
mangled key with the two closures above. -/
def Region.get_or_create {α : Type} (r : Region α) (w : World (CachedValue α))
    (key : String) (creator : Unit → α) (expiration_time : Option Time)
    (should_cache_fn : Option (α → Bool)) :
    Except RegionError α × World (CachedValue α) :=
  let key := r.mangleKey key
  let eff := r.effectiveExpiration expiration_time
  dogpileLock key eff (r.getValueFn eff key)
    (r.genValueFn eff key creator should_cache_fn) w

/-- Lexicographic byte-order on keys (Python string `<` on code points). -/
def keyLe : List Char → List Char → Bool
  | [], _ => true
  | _ :: _, [] => false
  | a :: as, b :: bs =>
    if a.toNat < b.toNat then true
    else if b.toNat < a.toNat then false
    else keyLe as bs

def strLe (a b : String) : Bool := keyLe a.data b.data

/-- `set(keys)` as a duplicate-free list (order irrelevant, sorted next). -/
def dedupKeys : List String → List String
  | [] => []
  | k :: rest =>
    let d := dedupKeys rest
    if d.contains k then d else k :: d

def orderedInsertKey (x : String) : List String → List String
  | [] => [x]
  | y :: ys => if strLe x y then x :: y :: ys else y :: orderedInsertKey x ys

/-- Python `sorted` on keys (insertion sort w.r.t. `strLe`). -/
def sortKeys : List String → List String
  | [] => []
  | x :: xs => orderedInsertKey x (sortKeys xs)

/-- `get_or_create_multi`'s `get_value(key)` closure, reduced to the
creation time it reports (the payload carried alongside is not consulted
by the lock probe): a cache miss reports `ct = 0` ("value not available"
— no `NeedRegenerationException` on this path); a soft-invalidated
envelope with a null effective expiration raises; otherwise the envelope's
`ct` (aged past expiration when soft-invalidated). -/
def Region.multiGetValueCt {α : Type} (r : Region α) (eff : Option Time)
    (values : List (String × Option (CachedValue α))) (mangled_key : String)
    (w : World (CachedValue α)) : Except RegionError Time × World (CachedValue α) :=
  let value := (lookupKey values mangled_key).join
  if r.is_cache_miss value then (Except.ok 0, w)
  else
    match value with
    | none => (Except.ok 0, w)
    | some cv =>
      let ct := cv.metadata.ct
      if r.region_invalidator.is_soft_invalidated ct then
        match eff with
        | none => (Except.error (RegionError.dogpileCache softInvalidationMsg), w)
        | some e =>
          let (t, w) := timeTick w
          (Except.ok (t - e - 1 / 10000), w)
      else (Except.ok ct, w)

/-- Modelled from the spec: one `with Lock(...): pass` probe of the
multi-key loop (§4.G).  The lock evaluates `get_value`; a fresh value
leaves the mutex untouched, while an absent or stale envelope leads (single
caller: the non-blocking acquire succeeds) to the async creator, which
records the mutex in the `mutexes` map without releasing it — §9 notes the
`gen_value` of this path is never called.  Returns whether the mutex was
recorded. -/
def lockProbeMulti {α : Type} (mutexKey : String) (eff : Option Time)
    (get_ct : World (CachedValue α) → Except RegionError Time × World (CachedValue α))
    (w : World (CachedValue α)) : Except RegionError Bool × World (CachedValue α) :=
  match get_ct w with
  | (Except.error e, w) => (Except.error e, w)
  | (Except.ok ct, w) =>
    let (fresh, w) := lockFresh eff ct w
    if fresh then (Except.ok false, w)
    else (Except.ok true, mutexAcquire w mutexKey)

/-- The `for orig_key, mangled_key in orig_to_mangled.items()` probe loop of
`get_or_create_multi`; returns the `mutexes` map as the list of
`(orig_key, mangled_key)` pairs whose mutex was acquired and recorded, in
iteration order. -/
def Region.probeAll {α : Type} (r : Region α) (eff : Option Time)
    (values : List (String × Option (CachedValue α))) :
    List (String × String) → World (CachedValue α) →
    Except RegionError (List (String × String)) × World (CachedValue α)
  | [], w => (Except.ok [], w)
  | (orig, mangled) :: rest, w =>
    match lockProbeMulti mangled eff (r.multiGetValueCt eff values mangled) w with
    | (Except.error e, w) => (Except.error e, w)
    | (Except.ok recorded, w) =>
      match Region.probeAll r eff values rest w with
      | (Except.error e, w) => (Except.error e, w)
      | (Except.ok ms, w) =>
        (Except.ok (if recorded then (orig, mangled) :: ms else ms), w)

/-- The dict comprehension
`{orig_to_mangled[k]: self._value(v) for k, v in zip(keys_to_get, new_values)}`:
each value is wrapped by `_value`, whose `_gen_metadata()` takes its own
`time.time()` reading. -/
def Region.stampAll {α : Type} (r : Region α) :
    List (String × α) → World (CachedValue α) →
    List (String × CachedValue α) × World (CachedValue α)
  | [], w => ([], w)
  | (k, v) :: rest, w =>
    let (t, w) := timeTick w
    let cv : CachedValue α := ⟨v, ⟨t, value_version⟩⟩
    let (tail, w) := Region.stampAll r rest w
    ((r.mangleKey k, cv) :: tail, w)

/-- `values.update(values_w_created)`. -/
def updateValues {α : Type} (values : List (String × Option (CachedValue α))) :
    List (String × CachedValue α) → List (String × Option (CachedValue α))
  | [] => values
  | (k, cv) :: rest => updateValues (setKey values k (some cv)) rest

/-- `_set_multi_cached_value_to_backend(mapping)`: empty mapping returns
without calling the backend. -/
def Region.set_multi_cached_value_to_backend {α : Type} (w : World (CachedValue α))
    (mapping : List (String × CachedValue α)) : World (CachedValue α) :=
  if mapping.isEmpty then w else backendSetMulti w mapping

def releaseAll {σ : Type} : World σ → List String → World σ
  | w, [] => w
  | w, k :: ks => releaseAll (mutexRelease w k) ks

/-- `get_or_create_multi(keys, creator, expiration_time, should_cache_fn)`.
Sort-deduplicate the keys, fetch all envelopes in one backend `get_multi`,
probe each key's mutex through the dogpile lock (recording the mutexes of
absent/stale keys), call the creator once on the sorted recorded keys,
wrap each returned value via `_value` (one clock reading each), refuse
soft invalidation without expiration, write the values passing
`should_cache_fn` in one `set_multi`, merge created values over the
fetched ones, release every recorded mutex, and return payloads in the
caller's original key order. -/
def Region.get_or_create_multi {α : Type} (r : Region α) (w : World (CachedValue α))
    (keys : List String) (creator : List String → List α)
    (expiration_time : Option Time) (should_cache_fn : Option (α → Bool)) :
    Except RegionError (List (Option α)) × World (CachedValue α) :=
  let eff := r.effectiveExpiration expiration_time
  let sorted_unique_keys := sortKeys (dedupKeys keys)
  let mangled_keys := sorted_unique_keys.map r.mangleKey
  let orig_to_mangled := sorted_unique_keys.zip mangled_keys
  let (backend_values, w) := backendGetMulti w mangled_keys
  let values := mangled_keys.zip backend_values
  match r.probeAll eff values orig_to_mangled w with
  | (Except.error e, w) => (Except.error e, w)
  | (Except.ok mutexes, w) =>
    if mutexes.isEmpty then
      (Except.ok (keys.map fun k =>
        ((lookupKey values (r.mangleKey k)).join).map (·.payload)), w)
    else
      let keys_to_get := sortKeys (mutexes.map (·.1))
      let (_start, w) := timeTick w
      let new_values := creator keys_to_get
      let (_finish, w) := timeTick w
      let (values_w_created, w) := r.stampAll (keys_to_get.zip new_values) w
      if eff = none ∧ r.region_invalidator.was_soft_invalidated = true then
        (Except.error (RegionError.dogpileCache softInvalidationMsg),
          releaseAll w (mutexes.map (·.2)))
      else
        let to_write := match should_cache_fn with
          | none => values_w_created
          | some f => values_w_created.filter (fun kv => f kv.2.payload)
        let w := Region.set_multi_cached_value_to_backend w to_write
        let values := updateValues values values_w_created
        let w := releaseAll w (mutexes.map (·.2))
        (Except.ok (keys.map fun k =>
          ((lookupKey values (r.mangleKey k)).join).map (·.payload)), w)

/-! ## The serializer pipeline

`_serialize_cached_value_elements` produces
`json.dumps(metadata).encode("ascii") + b"|" + serializer(payload)` and
`_parse_serialized_from_backend` splits at the first pipe byte with
`bytes.partition(b"|")`, JSON-decodes the first part and deserializes the
remainder.  Bytes are modelled as `List Char`; the JSON codec below mirrors
`json.dumps` / `json.loads` on flat string/number dictionaries whose
strings contain no quote, backslash, control or non-ASCII characters
(which `json.dumps` would escape), numbers restricted to naturals — ample
for the metadata dictionaries at issue. -/

abbrev Bytes := List Char

def pipeChar : Char := Char.ofNat 124

def quoteChar : Char := Char.ofNat 34

def lbraceChar : Char := Char.ofNat 123

def rbraceChar : Char := Char.ofNat 125

/-- `value.partition(b"|")` restricted to the two parts the code uses:
(before the first pipe, after it); a pipe-free input yields
`(value, b"")`. -/
def partitionPipe : Bytes → Bytes × Bytes
  | [] => ([], [])
  | c :: rest =>
    if c = pipeChar then ([], rest)
    else
      let p := partitionPipe rest
      (c :: p.1, p.2)

/-- A JSON metadata value: a (natural) number or a string. -/
inductive MVal
  | num (n : Nat)
  | str (s : String)
deriving DecidableEq, Repr

/-- A JSON metadata dictionary as an ordered field list. -/
abbrev MetaJson := List (String × MVal)

def digitChar (n : Nat) : Char := Char.ofNat (48 + n)

/-- Decimal digits, most significant first (structural recursion on a fuel
bound so that the definition evaluates by kernel reduction). -/
def natDigitsAux : Nat → Nat → List Char
  | 0, _ => []
  | fuel + 1, n =>
    if n < 10 then [digitChar n]
    else natDigitsAux fuel (n / 10) ++ [digitChar (n % 10)]

/-- Decimal digits of a natural number, most significant first. -/
def natDigits (n : Nat) : List Char := natDigitsAux (n + 1) n

def encVal : MVal → Bytes
  | MVal.num n => natDigits n
  | MVal.str s => quoteChar :: s.data ++ [quoteChar]

def encField (kv : String × MVal) : Bytes :=
  quoteChar :: kv.1.data ++ [quoteChar, ':', ' '] ++ encVal kv.2

def encFields : MetaJson → Bytes
  | [] => []
  | [kv] => encField kv
  | kv :: rest => encField kv ++ [',', ' '] ++ encFields rest

/-- `json.dumps(metadata).encode("ascii")` on a flat dictionary: fields in
order, separated by `", "`, each rendered as `"key": value`. -/
def jsonEncode (md : MetaJson) : Bytes :=
  lbraceChar :: encFields md ++ [rbraceChar]

def isDigitCh (c : Char) : Bool := 48 ≤ c.toNat && c.toNat ≤ 57

def digitVal (c : Char) : Nat := c.toNat - 48

/-- Consume a maximal run of digits, accumulating their value. -/
def parseNatAux : Bytes → Nat → Nat × Bytes
  | [], acc => (acc, [])
  | c :: rest, acc =>
    if isDigitCh c then parseNatAux rest (10 * acc + digitVal c)
    else (acc, c :: rest)

def parseNum : Bytes → Option (Nat × Bytes)
  | [] => none
  | c :: rest =>
    if isDigitCh c then some (parseNatAux rest (digitVal c))
    else none

/-- Read a string body up to the closing quote (no escape handling: the
modelled strings contain none). -/
def parseStrAux : Bytes → Option (List Char × Bytes)
  | [] => none
  | c :: rest =>
    if c = quoteChar then some ([], rest)
    else
      match parseStrAux rest with
      | some (s, r) => some (c :: s, r)
      | none => none

def parseVal : Bytes → Option (MVal × Bytes)
  | [] => none
  | c :: rest =>
    if c = quoteChar then
      match parseStrAux rest with
      | some (s, r) => some (MVal.str (String.mk s), r)
      | none => none
    else if isDigitCh c then
      match parseNatAux rest (digitVal c) with
      | (n, r) => some (MVal.num n, r)
    else none

def parseField (b : Bytes) : Option ((String × MVal) × Bytes) :=
  match b with
  | c :: rest =>
    if c = quoteChar then
      match parseStrAux rest with
      | some (k, r1) =>
        match r1 with
        | c1 :: c2 :: r2 =>
          if c1 = ':' ∧ c2 = ' ' then
            match parseVal r2 with
            | some (v, r3) => some ((String.mk k, v), r3)
            | none => none
          else none
        | _ => none
      | none => none
    else none
  | [] => none

def parseFieldsAux : Nat → Bytes → Option (MetaJson × Bytes)
  | 0, _ => none
  | fuel + 1, b =>
    match parseField b with
    | none => none
    | some (kv, r) =>
      match r with
      | c1 :: c2 :: r2 =>
        if c1 = ',' ∧ c2 = ' ' then
          match parseFieldsAux fuel r2 with
          | some (md, r3) => some (kv :: md, r3)
          | none => none
        else some ([kv], r)
      | _ => some ([kv], r)

/-- `json.loads` on the byte strings produced by `jsonEncode` (and `none`
— an exception — on anything else, in particular on a truncated
dictionary). -/
def jsonDecode (b : Bytes) : Option MetaJson :=
  match b with
  | [] => none
  | c :: rest =>
    if c = lbraceChar then
      match rest with
      | [] => none
      | c2 :: r2 =>
        if c2 = rbraceChar then (if r2 = [] then some [] else none)
        else
          match parseFieldsAux rest.length rest with
          | some (md, r) =>
            match r with
            | [c3] => if c3 = rbraceChar then some md else none
            | _ => none
          | none => none
    else none

/-- A string `json.dumps` renders verbatim: printable ASCII with no quote
and no backslash. -/
def strOk (s : String) : Bool :=
  s.data.all (fun c => 32 ≤ c.toNat && c.toNat ≤ 126 &&
    !(c = quoteChar) && !(c = Char.ofNat 92))

def valOk : MVal → Bool
  | MVal.num _ => true
  | MVal.str s => strOk s

/-- The metadata dictionaries covered by the codec model. -/
def metaOk (md : MetaJson) : Bool :=
  md.all (fun kv => strOk kv.1 && valOk kv.2)

def noPipe (b : Bytes) : Bool := b.all (fun c => !(c = pipeChar))

/-- How a deserializer can fail: the declared `CantDeserializeException`,
or any other exception. -/
inductive DeserFail
  | cantDeserialize
  | raised (msg : String)
deriving DecidableEq, Repr

/-- `_serialize_cached_value_elements(payload, metadata)`:
`b"%b|%b" % (json.dumps(metadata).encode("ascii"), serializer(payload))`. -/
def serialize_cached_value_elements {α : Type} (serializer : α → Bytes)
    (payload : α) (metadata : MetaJson) : Bytes :=
  jsonEncode metadata ++ pipeChar :: serializer payload

/-- `_parse_serialized_from_backend(value)` over a general metadata
dictionary: `NO_VALUE` passes through; otherwise split at the first pipe,
JSON-decode the first part (a failure there — `json.loads` raising — 
propagates), deserialize the remainder; `CantDeserializeException` is
recovered as `NO_VALUE`, any other deserializer exception propagates. -/
def parse_serialized_elements {α : Type} (deserializer : Bytes → Except DeserFail α)
    (value : Option Bytes) : Except RegionError (Option (α × MetaJson)) :=
  match value with
  | none => Except.ok none
  | some b =>
    let p := partitionPipe b
    match jsonDecode p.1 with
    | none => Except.error RegionError.jsonLoads
    | some metadata =>
      match deserializer p.2 with
      | Except.error DeserFail.cantDeserialize => Except.ok none
      | Except.error (DeserFail.raised m) =>
        Except.error (RegionError.deserializerRaised m)
      | Except.ok payload => Except.ok (some (payload, metadata))

/-- The `CacheRegion` state for a byte-oriented backend: a serializer and a
deserializer are configured, so every read/write goes through the
serialization pipeline. -/
structure SerRegion (α : Type) where
  expiration_time : Option Time
  key_mangler : Option (String → String)
  region_invalidator : DefaultInvalidationStrategy
  serializer : α → Bytes
  deserializer : Bytes → Except DeserFail α

def SerRegion.mangleKey {α : Type} (r : SerRegion α) (key : String) : String :=
  mangleOpt r.key_mangler key

def SerRegion.effectiveExpiration {α : Type} (r : SerRegion α)
    (expiration_time : Option Time) : Option Time :=
  let e := match expiration_time with
    | none => r.expiration_time
    | some t => some t
  if e = some (-1) then none else e

/-- Python dict access on the decoded metadata. -/
def lookupField : MetaJson → String → Option MVal
  | [], _ => none
  | (k, v) :: rest, key => if k = key then some v else lookupField rest key

/-- Decoding the metadata dictionary into the structured record the region
logic reads (`metadata["ct"]`, `metadata["v"]`): both fields must be
present and numeric; the model restricts to such metadata (extra opaque
keys are dropped here — only `ct` and `v` are ever consulted by the
region logic). -/
def jsonDecodeMeta (b : Bytes) : Except RegionError Metadata :=
  match jsonDecode b with
  | none => Except.error RegionError.jsonLoads
  | some md =>
    match lookupField md "ct", lookupField md "v" with
    | some (MVal.num c), some (MVal.num v) => Except.ok ⟨(c : Time), (v : Int)⟩
    | _, _ => Except.error RegionError.jsonLoads

/-- `_parse_serialized_from_backend` with the structured metadata record
used by the region logic. -/
def SerRegion.parse_serialized_from_backend {α : Type} (r : SerRegion α)
    (value : Option Bytes) : Except RegionError (Option (CachedValue α)) :=
  match value with
  | none => Except.ok none
  | some b =>
    let p := partitionPipe b
    match jsonDecodeMeta p.1 with
    | Except.error e => Except.error e
    | Except.ok metadata =>
      match r.deserializer p.2 with
      | Except.error DeserFail.cantDeserialize => Except.ok none
      | Except.error (DeserFail.raised m) =>
        Except.error (RegionError.deserializerRaised m)
      | Except.ok payload => Except.ok (some ⟨payload, metadata⟩)

/-- `_is_cache_miss` for the serialized flavor (same logic). -/
def SerRegion.is_cache_miss {α : Type} (r : SerRegion α)
    (value : Option (CachedValue α)) : Bool :=
  match value with
  | none => true
  | some v =>
    if v.metadata.v ≠ value_version then true
    else if r.region_invalidator.is_hard_invalidated v.metadata.ct then true
    else false

/-- `_get_from_backend` with a deserializer configured:
`self._parse_serialized_from_backend(self.backend.get_serialized(key))`. -/
def SerRegion.get_from_backend {α : Type} (r : SerRegion α) (w : World Bytes)
    (key : String) : Except RegionError (Option (CachedValue α)) × World Bytes :=
  let (bv, w) := backendGet w key
  (r.parse_serialized_from_backend bv, w)

/-- `get_or_create`'s `get_value` closure for a byte-oriented backend. -/
def SerRegion.getValueFn {α : Type} (r : SerRegion α) (eff : Option Time)
    (key : String) (w : World Bytes) : Except RegionError (α × Time) × World Bytes :=
  match r.get_from_backend w key with
  | (Except.error e, w) => (Except.error e, w)
  | (Except.ok value, w) => getValueCore r.region_invalidator r.is_cache_miss eff value w

/-- The metadata record rendered back to a JSON dictionary for the write
path (exact for the natural-valued clock streams used throughout). -/
def metaJsonOfMetadata (md : Metadata) : MetaJson :=
  [("ct", MVal.num md.ct.num.toNat), ("v", MVal.num md.v.toNat)]

/-- `_serialized_cached_value(value)`. -/
def SerRegion.serialized_cached_value {α : Type} (r : SerRegion α)
    (cv : CachedValue α) : Bytes :=
  serialize_cached_value_elements r.serializer cv.payload
    (metaJsonOfMetadata cv.metadata)

/-- `get_or_create`'s `gen_value` closure for a byte-oriented backend:
the write goes through `backend.set_serialized`. -/
def SerRegion.genValueFn {α : Type} (r : SerRegion α) (eff : Option Time)
    (key : String) (creator : Unit → α) (should_cache_fn : Option (α → Bool))
    (w : World Bytes) : Except RegionError (α × Time) × World Bytes :=
  let (_start, w) := timeTick w
  let created := creator ()
  let (_finish, w) := timeTick w
  let (ct, w) := timeTick w
  let value : CachedValue α := ⟨created, ⟨ct, value_version⟩⟩
  if eff = none ∧ r.region_invalidator.was_soft_invalidated = true then
    (Except.error (RegionError.dogpileCache softInvalidationMsg), w)
  else
    let w := if shouldCache should_cache_fn created then
        backendSet w key (r.serialized_cached_value value)
      else w
    (Except.ok (value.payload, value.metadata.ct), w)

/-- `get_or_create` for a byte-oriented backend. -/
def SerRegion.get_or_create {α : Type} (r : SerRegion α) (w : World Bytes)
    (key : String) (creator : Unit → α) (expiration_time : Option Time)
    (should_cache_fn : Option (α → Bool)) : Except RegionError α × World Bytes :=
  let key := r.mangleKey key
  let eff := r.effectiveExpiration expiration_time
  dogpileLock key eff (r.getValueFn eff key)
    (r.genValueFn eff key creator should_cache_fn) w

/-! ## Claim theorems -/

lemma foldl_invalidate_eq (calls : List (Bool × Time)) :
    ∀ (s : DefaultInvalidationStrategy) (h : calls ≠ []),
      calls.foldl (fun s c => s.invalidate c.1 c.2) s =
        ⟨some (calls.getLast h).1, some (calls.getLast h).2⟩ := by
  induction calls with
  | nil => intro s h; exact absurd rfl h
  | cons c rest ih =>
    intro s h
    cases rest with
    | nil => rfl
    | cons d tl =>
      have hne : d :: tl ≠ [] := by simp
      rw [List.foldl_cons, ih (s.invalidate c.1 c.2) hne]
      rw [List.getLast_cons hne]

/-- C10: for `DefaultInvalidationStrategy`, `was_hard_invalidated` and
`was_soft_invalidated` are never both true; in the initial state both are
false, and after any non-empty sequence of `invalidate(hard)` calls the
mode predicate matching the most recent call is true and the other false,
because each call overwrites both the stored mode and the barrier
timestamp. -/
theorem claim_C10 :
    (DefaultInvalidationStrategy.init.was_hard_invalidated = false ∧
     DefaultInvalidationStrategy.init.was_soft_invalidated = false) ∧
    (∀ s : DefaultInvalidationStrategy,
      ¬(s.was_hard_invalidated = true ∧ s.was_soft_invalidated = true)) ∧
    (∀ (calls : List (Bool × Time)) (h : calls ≠ []),
      (calls.foldl (fun s c => s.invalidate c.1 c.2)
          DefaultInvalidationStrategy.init).was_hard_invalidated =
        (calls.getLast h).1 ∧
      (calls.foldl (fun s c => s.invalidate c.1 c.2)
          DefaultInvalidationStrategy.init).was_soft_invalidated =
        !(calls.getLast h).1) := by
  refine ⟨⟨rfl, rfl⟩, ?_, ?_⟩
  · intro s ⟨h1, h2⟩
    simp only [DefaultInvalidationStrategy.was_hard_invalidated,
      DefaultInvalidationStrategy.was_soft_invalidated, decide_eq_true_eq] at h1 h2
    rw [h1] at h2
    exact absurd (Option.some.inj h2) (by simp)
  · intro calls h
    rw [foldl_invalidate_eq calls DefaultInvalidationStrategy.init h]
    cases (calls.getLast h).1 <;> simp [DefaultInvalidationStrategy.was_hard_invalidated,
      DefaultInvalidationStrategy.was_soft_invalidated]

/-- Witness for C10 at the call sequence `invalidate(hard=True)` then
`invalidate(hard=False)`: afterwards the region reports soft, not hard. -/
theorem claim_C10_witness :
    ([((true : Bool), (0 : Time)), (false, 1)] ≠ ([] : List (Bool × Time))) ∧
    (([((true : Bool), (0 : Time)), (false, 1)].foldl
        (fun s c => s.invalidate c.1 c.2)
        DefaultInvalidationStrategy.init).was_hard_invalidated = false ∧
     ([((true : Bool), (0 : Time)), (false, 1)].foldl
        (fun s c => s.invalidate c.1 c.2)
        DefaultInvalidationStrategy.init).was_soft_invalidated = true) := by
  refine ⟨by decide, ?_⟩
  have h := claim_C10.2.2 [((true : Bool), (0 : Time)), (false, 1)] (by decide)
  simpa using h

/-- C7 (amended): `get_multi` on an empty key sequence returns `[]` and
`set_multi` on an empty mapping returns with no backend operation and no
clock reading; `delete_multi` on an empty key sequence leaves the stored
state unchanged but does issue a `delete_multi` backend call with the
empty key list (there is no empty-input early return on that path). -/
theorem claim_C7_amended {α : Type} (r : Region α) (w : World (CachedValue α))
    (expiration_time : Option Time) (ignore_expiration : Bool) :
    Region.get_multi r w [] expiration_time ignore_expiration = ([], w) ∧
    Region.set_multi r w [] = w ∧
    Region.delete_multi r w [] =
      { w with events := w.events ++ [Event.bdeleteMulti []] } := by
  refine ⟨rfl, rfl, ?_⟩
  show backendDeleteMulti w _ = _
  cases hkm : r.key_mangler <;>
    simp [Region.delete_multi, hkm, backendDeleteMulti, List.filter_eq_self]

def regionC7 : Region Int := ⟨none, none, DefaultInvalidationStrategy.init⟩

def worldC7 : World (CachedValue Int) := ⟨[], 0, fun _ => 0, [], []⟩

/-- Counterexample to C7 as stated: `delete_multi([])` is not free of
backend operations — on an empty region it issues
`backend.delete_multi([])`, observable in the event log. -/
theorem claim_C7_counterexample :
    (Region.delete_multi regionC7 worldC7 []).events = [Event.bdeleteMulti []] ∧
    worldC7.events = [] := by
  constructor <;> rfl

/-- C9: the `-1` "no expiration" sentinel is interpreted only by the
effective-expiration computation of `get_or_create` /
`get_or_create_multi` (which maps it to `None`); `get` compares the
value's age against `-1` directly, so any present value whose age exceeds
`-1` seconds is reported as `NO_VALUE` rather than having expiration
disabled. -/
theorem claim_C9 {α : Type} (r : Region α) (w : World (CachedValue α)) (key : String)
    (cv : CachedValue α)
    (hlook : lookupKey w.store (r.mangleKey key) = some cv)
    (hage : w.clock w.tick - cv.metadata.ct > -1) :
    (Region.get r w key (some (-1)) false).1 = none ∧
    r.effectiveExpiration (some (-1)) = none := by
  constructor
  · simp only [Region.get, Region.get_cache_value, backendGet, hlook,
      Region.unexpired_value_fn, timeTick, Bool.false_eq_true, if_false, expCheck]
    simp [hage]
  · simp [Region.effectiveExpiration]

def regionC9 : Region Int := ⟨none, none, DefaultInvalidationStrategy.init⟩

def worldC9 : World (CachedValue Int) :=
  ⟨[("k", ⟨7, ⟨0, 2⟩⟩)], 0, fun _ => 1, [], []⟩

/-- Witness for C9: a value cached at `ct = 0` and read at time `1` (age
`1 > -1`) is reported as `NO_VALUE` by `get(key, expiration_time=-1)`. -/
theorem claim_C9_witness :
    lookupKey worldC9.store (regionC9.mangleKey "k") = some ⟨7, ⟨0, 2⟩⟩ ∧
    worldC9.clock worldC9.tick - (0 : Time) > -1 ∧
    (Region.get regionC9 worldC9 "k" (some (-1)) false).1 = none := by
  refine ⟨rfl, by norm_num [worldC9], ?_⟩
  exact (claim_C9 regionC9 worldC9 "k" ⟨7, ⟨0, 2⟩⟩ rfl (by norm_num [worldC9])).1

/-- Evaluation of `get_or_create` on a cache miss (absent key, version
mismatch or hard invalidation) when the region is not soft-invalidated:
the dogpile lock consumes `NeedRegenerationException`, acquires the mutex
of the mangled key, runs `gen_value` (three clock readings: the two
`_log_time` stamps and `_gen_metadata`), persists the fresh envelope iff
`should_cache_fn` accepts the created value, releases the mutex, and
returns the created value. -/
lemma get_or_create_miss_run {α : Type} (r : Region α) (w : World (CachedValue α))
    (key : String) (creator : Unit → α) (exp : Option Time)
    (scf : Option (α → Bool))
    (hmiss : r.is_cache_miss (lookupKey w.store (r.mangleKey key)) = true)
    (hsoft : r.region_invalidator.was_soft_invalidated = false) :
    Region.get_or_create r w key creator exp scf =
      (Except.ok (creator ()),
        { store :=
            if shouldCache scf (creator ()) then
              setKey w.store (r.mangleKey key)
                ⟨creator (), ⟨w.clock (w.tick + 2), value_version⟩⟩
            else w.store
          tick := w.tick + 3
          clock := w.clock
          lockedKeys := w.lockedKeys
          events := w.events ++
            [Event.bget (r.mangleKey key), Event.macquire (r.mangleKey key)] ++
            (if shouldCache scf (creator ()) then
              [Event.bset (r.mangleKey key)] else []) ++
            [Event.mrelease (r.mangleKey key)] }) := by
  unfold Region.get_or_create dogpileLock Region.getValueFn
  simp only [backendGet, getValueCore, hmiss, if_true]
  unfold dogpileGen Region.genValueFn
  simp only [timeTick, mutexAcquire, hsoft, Bool.false_eq_true, and_false, if_false,
    mutexRelease, backendSet]
  cases hsc : shouldCache scf (creator ()) with
  | false =>
    simp only [Bool.false_eq_true, if_false]
    simp [List.erase_cons_head]
  | true =>
    simp only [if_true]
    simp [List.erase_cons_head]

/-- C1 (amended): `get_or_create` treats an envelope whose metadata `v`
differs from `value_version` as a cache miss — the stored payload is not
returned, the creator's value is — but `get` and `get_multi` (both apply
the same `_unexpired_value_fn` filter) never consult the version field:
an unexpired, non-invalidated envelope has its payload returned whatever
its `v`; for `get_multi` the payload appears at the position of the key
in the requested key list. -/
theorem claim_C1_amended {α : Type} (r : Region α) (w : World (CachedValue α))
    (key : String) (creator : Unit → α) (exp : Option Time)
    (scf : Option (α → Bool)) (cv : CachedValue α) :
    (lookupKey w.store (r.mangleKey key) = some cv →
      cv.metadata.v ≠ value_version →
      r.region_invalidator.was_soft_invalidated = false →
      (Region.get_or_create r w key creator exp scf).1 = Except.ok (creator ())) ∧
    (∀ (w2 : World (CachedValue α)) (exp2 : Option Time),
      lookupKey w2.store (r.mangleKey key) = some cv →
      expCheck (match exp2 with | none => r.expiration_time | some e => some e)
        (w2.clock w2.tick) cv.metadata.ct = false →
      r.region_invalidator.is_invalidated cv.metadata.ct = false →
      (Region.get r w2 key exp2 false).1 = some cv.payload) ∧
    (∀ (keys : List String) (i : Nat) (w2 : World (CachedValue α))
       (exp2 : Option Time),
      keys[i]? = some key →
      lookupKey w2.store (r.mangleKey key) = some cv →
      expCheck (match exp2 with | none => r.expiration_time | some e => some e)
        (w2.clock w2.tick) cv.metadata.ct = false →
      r.region_invalidator.is_invalidated cv.metadata.ct = false →
      (Region.get_multi r w2 keys exp2 false).1[i]? = some (some cv.payload)) := by
  refine ⟨?_, ?_, ?_⟩
  · intro hlook hv hsoft
    have hmiss : r.is_cache_miss (lookupKey w.store (r.mangleKey key)) = true := by
      rw [hlook]
      simp [Region.is_cache_miss, hv]
    rw [get_or_create_miss_run r w key creator exp scf hmiss hsoft]
  · intro w2 exp2 hlook hexp hinv
    simp only [Region.get, Region.get_cache_value, backendGet, hlook,
      Region.unexpired_value_fn, timeTick, Bool.false_eq_true, if_false]
    simp [hexp, hinv]
  · intro keys i w2 exp2 hki hlook hexp hinv
    cases hne : keys.isEmpty with
    | true =>
      rw [List.isEmpty_iff.mp hne] at hki
      simp at hki
    | false =>
      simp only [Region.get_multi, hne, Bool.false_eq_true, if_false,
        backendGetMulti, Region.unexpired_value_fn, timeTick,
        List.map_map]
      rw [List.getElem?_map, hki]
      simp [hlook, hexp, hinv]

def regionC1 : Region Int := ⟨none, none, DefaultInvalidationStrategy.init⟩

def worldC1 : World (CachedValue Int) :=
  ⟨[("k", ⟨7, ⟨5, 1⟩⟩)], 0, fun _ => 9, [], []⟩

/-- Counterexample to C1 as stated: the backend holds an envelope for "k"
whose metadata `v` is `1 ≠ value_version`, yet `get` returns its payload
`7` — the read paths of `get`/`get_multi` do not treat a
version-mismatched envelope as absent. -/
theorem claim_C1_counterexample :
    lookupKey worldC1.store "k" = some ⟨7, ⟨5, 1⟩⟩ ∧
    ((1 : Int) ≠ value_version) ∧
    (Region.get regionC1 worldC1 "k" none false).1 = some 7 := by
  refine ⟨rfl, by decide, ?_⟩
  simp [Region.get, Region.get_cache_value, backendGet, Region.mangleKey,
    mangleOpt, regionC1, worldC1, Region.unexpired_value_fn, timeTick,
    lookupKey, expCheck, DefaultInvalidationStrategy.is_invalidated,
    DefaultInvalidationStrategy.init]

/-- Witness for the amended C1: on a store holding a `v = 1` envelope under
"k", `get_or_create` returns the creator's value `42`, while `get` (second
conjunct) and `get_multi` at position 0 of `["k"]` (third conjunct) return
the stored payload `7`. -/
theorem claim_C1_amended_witness :
    lookupKey worldC1.store (regionC1.mangleKey "k") = some ⟨7, ⟨5, 1⟩⟩ ∧
    ((⟨7, ⟨5, 1⟩⟩ : CachedValue Int).metadata.v ≠ value_version) ∧
    regionC1.region_invalidator.was_soft_invalidated = false ∧
    (["k"][0]? = some "k") ∧
    (Region.get_or_create regionC1 worldC1 "k" (fun _ => 42) none none).1 =
      Except.ok 42 ∧
    (Region.get regionC1 worldC1 "k" none false).1 = some 7 ∧
    (Region.get_multi regionC1 worldC1 ["k"] none false).1[0]? =
      some (some 7) := by
  refine ⟨rfl, by decide, by decide, rfl, ?_, ?_, ?_⟩
  · exact (claim_C1_amended regionC1 worldC1 "k" (fun _ => 42) none none
      ⟨7, ⟨5, 1⟩⟩).1 rfl (by decide) (by decide)
  · exact (claim_C1_amended regionC1 worldC1 "k" (fun _ => 42) none none
      ⟨7, ⟨5, 1⟩⟩).2.1 worldC1 none rfl (by decide) (by decide)
  · exact (claim_C1_amended regionC1 worldC1 "k" (fun _ => 42) none none
      ⟨7, ⟨5, 1⟩⟩).2.2 ["k"] 0 worldC1 none rfl rfl (by decide) (by decide)

/-- C3: when the effective expiration time (per-call value defaulting to
the region's, with `-1` mapped to `None`) is `None` and the region was
soft-invalidated, `get_or_create` surfaces `DogpileCacheException` instead
of returning or caching anything — both when it reads a soft-invalidated
envelope and when it would generate a value while `was_soft_invalidated()`
holds; the backend's stored state is untouched in both cases. -/
theorem claim_C3 {α : Type} (r : Region α) (w : World (CachedValue α)) (key : String)
    (creator : Unit → α) (exp : Option Time) (scf : Option (α → Bool))
    (heff : r.effectiveExpiration exp = none) :
    (∀ cv : CachedValue α,
      lookupKey w.store (r.mangleKey key) = some cv →
      cv.metadata.v = value_version →
      r.region_invalidator.is_soft_invalidated cv.metadata.ct = true →
      (Region.get_or_create r w key creator exp scf).1 =
        Except.error (RegionError.dogpileCache softInvalidationMsg) ∧
      (Region.get_or_create r w key creator exp scf).2.store = w.store) ∧
    (lookupKey w.store (r.mangleKey key) = none →
      r.region_invalidator.was_soft_invalidated = true →
      (Region.get_or_create r w key creator exp scf).1 =
        Except.error (RegionError.dogpileCache softInvalidationMsg) ∧
      (Region.get_or_create r w key creator exp scf).2.store = w.store) := by
  constructor
  · intro cv hlook hv hsoftinv
    have hpair : r.region_invalidator.was_soft_invalidated = true ∧
        r.region_invalidator.is_invalidated cv.metadata.ct = true := by
      have h2 := hsoftinv
      simp only [DefaultInvalidationStrategy.is_soft_invalidated,
        Bool.and_eq_true] at h2
      exact h2
    have hst : r.region_invalidator.is_hard_invalidated cv.metadata.ct = false := by
      have hws := of_decide_eq_true hpair.1
      simp [DefaultInvalidationStrategy.is_hard_invalidated,
        DefaultInvalidationStrategy.was_hard_invalidated, hws]
    have hmiss : r.is_cache_miss (some cv) = false := by
      simp [Region.is_cache_miss, hv, hst]
    unfold Region.get_or_create dogpileLock Region.getValueFn
    simp only [backendGet, hlook, getValueCore, heff, hmiss, Bool.false_eq_true,
      if_false, hsoftinv, if_true]
    exact ⟨trivial, trivial⟩
  · intro hlook hsoft
    unfold Region.get_or_create dogpileLock Region.getValueFn
    simp only [backendGet, hlook, getValueCore, heff, Region.is_cache_miss, if_true]
    unfold dogpileGen Region.genValueFn
    simp only [timeTick, mutexAcquire, heff, hsoft, and_self, if_true, mutexRelease]

def regionC3 : Region Int := ⟨none, none, ⟨some false, some 10⟩⟩

def worldC3 : World (CachedValue Int) :=
  ⟨[("k", ⟨7, ⟨5, 2⟩⟩)], 0, fun _ => 20, [], []⟩

/-- Witness for C3: a region soft-invalidated at time 10 with no
expiration configured; reading the envelope cached at `ct = 5` errors, and
(second conjunct, on a world without the key) generating errors too. -/
theorem claim_C3_witness :
    regionC3.effectiveExpiration none = none ∧
    lookupKey worldC3.store (regionC3.mangleKey "k") = some ⟨7, ⟨5, 2⟩⟩ ∧
    regionC3.region_invalidator.is_soft_invalidated 5 = true ∧
    (Region.get_or_create regionC3 worldC3 "k" (fun _ => 42) none none).1 =
      Except.error (RegionError.dogpileCache softInvalidationMsg) ∧
    (Region.get_or_create regionC3 worldC3 "k" (fun _ => 42) none none).2.store =
      worldC3.store := by
  refine ⟨rfl, rfl, by decide, ?_⟩
  exact (claim_C3 regionC3 worldC3 "k" (fun _ => 42) none none rfl).1
    ⟨7, ⟨5, 2⟩⟩ rfl rfl (by decide)

/-- C8: `key_is_locked(key)` consults the mutex registered under the raw
key, while `get_or_create(key, ...)` acquires (and releases) the mutex
registered under the mangled key; with a mangler that moves the key, the
two are different registry entries: if only the generation mutex is held,
`key_is_locked(key)` reports false, and a full `get_or_create` run only
ever acquires the mangled key's mutex, never the raw key's. -/
theorem claim_C8 {α : Type} (r : Region α) (w : World (CachedValue α)) (key : String)
    (creator : Unit → α) (exp : Option Time)
    (hm : r.mangleKey key ≠ key)
    (hmiss : lookupKey w.store (r.mangleKey key) = none)
    (hsoft : r.region_invalidator.was_soft_invalidated = false)
    (hev : w.events = []) :
    Region.key_is_locked r { w with lockedKeys := [r.mangleKey key] } key = false ∧
    Event.macquire (r.mangleKey key) ∈
      (Region.get_or_create r w key creator exp none).2.events ∧
    Event.macquire key ∉
      (Region.get_or_create r w key creator exp none).2.events := by
  have hrun := get_or_create_miss_run r w key creator exp none
    (by rw [hmiss]; rfl) hsoft
  refine ⟨?_, ?_, ?_⟩
  · simp only [Region.key_is_locked, mutexLocked]
    simp [Ne.symm hm]
  · rw [hrun]
    simp [shouldCache]
  · rw [hrun]
    simp [shouldCache, hev, hm, Ne.symm hm]

def manglerC8 : String → String := fun k => String.append "m:" k

def regionC8 : Region Int := ⟨none, some manglerC8, DefaultInvalidationStrategy.init⟩

def worldC8 : World (CachedValue Int) := ⟨[], 0, fun _ => 0, [], []⟩

/-- Witness for C8 with the mangler prepending `"m:"`: during generation
for "k" the held mutex is the one of "m:k", and `key_is_locked("k")` looks
at a different mutex. -/
theorem claim_C8_witness :
    regionC8.mangleKey "k" ≠ "k" ∧
    lookupKey worldC8.store (regionC8.mangleKey "k") = none ∧
    (Region.key_is_locked regionC8
        { worldC8 with lockedKeys := [regionC8.mangleKey "k"] } "k" = false ∧
     Event.macquire (regionC8.mangleKey "k") ∈
       (Region.get_or_create regionC8 worldC8 "k" (fun _ => 1) none none).2.events ∧
     Event.macquire "k" ∉
       (Region.get_or_create regionC8 worldC8 "k" (fun _ => 1) none none).2.events) := by
  refine ⟨by decide, rfl, ?_⟩
  exact claim_C8 regionC8 worldC8 "k" (fun _ => 1) none (by decide) rfl rfl rfl

/-- Evaluation of `get_or_create_multi` on two distinct keys over an empty
backend (no key mangler, region not soft-invalidated): both keys miss, both
mutexes are recorded, the creator is called once on the sorted key pair,
each created value is wrapped by `_value` with its own clock reading
(ticks `tick+2` and `tick+3`; `tick` and `tick+1` are the `_log_time`
stamps), the values passing `should_cache_fn` are written in one
`set_multi`, and both created payloads are returned in caller order. -/
lemma get_or_create_multi_two_key {α : Type} (r : Region α)
    (w : World (CachedValue α)) (a b : String) (va vb : α)
    (creator : List String → List α) (exp : Option Time)
    (scf : Option (α → Bool))
    (hkm : r.key_mangler = none)
    (hsoft : r.region_invalidator.was_soft_invalidated = false)
    (hne : a ≠ b) (hab : strLe a b = true) (hst : w.store = [])
    (hcr : creator [a, b] = [va, vb]) :
    (Region.get_or_create_multi r w [a, b] creator exp scf).1 =
      Except.ok [some va, some vb] ∧
    (Region.get_or_create_multi r w [a, b] creator exp scf).2.store =
      ((match scf with
        | none =>
          [(a, (⟨va, ⟨w.clock (w.tick + 2), value_version⟩⟩ : CachedValue α)),
           (b, ⟨vb, ⟨w.clock (w.tick + 3), value_version⟩⟩)]
        | some f =>
          [(a, (⟨va, ⟨w.clock (w.tick + 2), value_version⟩⟩ : CachedValue α)),
           (b, ⟨vb, ⟨w.clock (w.tick + 3), value_version⟩⟩)].filter
            (fun (kv : String × CachedValue α) => f kv.2.payload)).foldl
        (fun (st : List (String × CachedValue α)) (kv : String × CachedValue α) =>
          setKey st kv.1 kv.2) []) := by
  have hba : ¬(b = a) := fun h => hne h.symm
  have hdedup : dedupKeys [a, b] = [a, b] := by
    simp [dedupKeys, hne]
  have hsort : sortKeys [a, b] = [a, b] := by
    simp [sortKeys, orderedInsertKey, hab]
  have hmangle : ∀ k, r.mangleKey k = k := by
    intro k; simp [Region.mangleKey, hkm, mangleOpt]
  unfold Region.get_or_create_multi
  rw [hdedup, hsort]
  simp only [hmangle, List.map_id_fun, id_eq, List.map_cons, List.map_nil,
    backendGetMulti, hst, lookupKey, List.zip_cons_cons, List.zip_nil_right]
  unfold Region.probeAll Region.probeAll Region.probeAll
  simp only [Region.multiGetValueCt, lookupKey, if_pos rfl, if_neg hne, if_neg hba,
    Option.join, lockProbeMulti, lockFresh, Region.is_cache_miss]
  norm_num
  simp only [hsort, hcr, List.zip_cons_cons, List.zip_nil_right, Region.stampAll,
    timeTick, mutexAcquire, hmangle]
  simp only [hsoft, Bool.false_eq_true, and_false, if_false]
  cases scf with
  | none =>
    simp only [Region.set_multi_cached_value_to_backend, List.isEmpty_cons,
      Bool.false_eq_true, if_false, backendSetMulti, updateValues, setKey,
      if_pos rfl, if_neg hba, if_neg hne, releaseAll, mutexRelease,
      List.map_cons, List.map_nil, lookupKey, Option.join, Option.map_some]
    constructor
    · simp [lookupKey, hne, hba]
    · trivial
  | some f =>
    simp only [Region.set_multi_cached_value_to_backend, backendSetMulti,
      updateValues, setKey, if_pos rfl, if_neg hba, if_neg hne, releaseAll,
      mutexRelease, List.map_cons, List.map_nil, lookupKey, Option.join,
      Option.map_some]
    constructor
    · simp [lookupKey, hne, hba]
    · cases hemp : ([(a, (⟨va, ⟨w.clock (w.tick + 2), value_version⟩⟩ : CachedValue α)),
           (b, ⟨vb, ⟨w.clock (w.tick + 3), value_version⟩⟩)].filter
            (fun (kv : String × CachedValue α) => f kv.2.payload)).isEmpty
      · simp [hemp]
      · simp only [hemp, if_true]
        have := List.isEmpty_iff.mp hemp
        simp [this]

/-- C5: when `should_cache_fn` rejects the created value, `get_or_create`
returns that value to the caller with the backend's stored state untouched;
likewise per value in `get_or_create_multi` (shown over two arbitrary
distinct keys on an empty backend, no key mangler): the rejected key's
value is returned but no entry is written for it. -/
theorem claim_C5 {α : Type} (r : Region α) (w : World (CachedValue α)) (key : String)
    (creator : Unit → α) (exp : Option Time) (f : α → Bool)
    (hmiss : r.is_cache_miss (lookupKey w.store (r.mangleKey key)) = true)
    (hsoft : r.region_invalidator.was_soft_invalidated = false)
    (hf : f (creator ()) = false) :
    ((Region.get_or_create r w key creator exp (some f)).1 =
        Except.ok (creator ()) ∧
     (Region.get_or_create r w key creator exp (some f)).2.store = w.store) ∧
    (∀ (a b : String) (va vb : α) (g : List String → List α) (exp2 : Option Time)
       (f2 : α → Bool) (w2 : World (CachedValue α)) (r2 : Region α),
      r2.key_mangler = none →
      r2.region_invalidator.was_soft_invalidated = false →
      a ≠ b → strLe a b = true → w2.store = [] → g [a, b] = [va, vb] →
      f2 va = false →
      (Region.get_or_create_multi r2 w2 [a, b] g exp2 (some f2)).1 =
        Except.ok [some va, some vb] ∧
      lookupKey (Region.get_or_create_multi r2 w2 [a, b] g exp2 (some f2)).2.store
        a = none) := by
  constructor
  · rw [get_or_create_miss_run r w key creator exp (some f) hmiss hsoft]
    refine ⟨rfl, ?_⟩
    simp [shouldCache, hf]
  · intro a b va vb g exp2 f2 w2 r2 hkm2 hsoft2 hne2 hab2 hst2 hcr2 hf2
    have h := get_or_create_multi_two_key r2 w2 a b va vb g exp2 (some f2)
      hkm2 hsoft2 hne2 hab2 hst2 hcr2
    refine ⟨h.1, ?_⟩
    rw [h.2]
    have hba2 : ¬(b = a) := fun hx => hne2 hx.symm
    cases hfb : f2 vb <;>
      simp [List.filter_cons, hf2, hfb, setKey, lookupKey, hba2]

def regionC5 : Region Int := ⟨none, none, DefaultInvalidationStrategy.init⟩

def worldC5 : World (CachedValue Int) := ⟨[], 0, fun n => (n : ℚ), [], []⟩

/-- Witness for C5: creator value 5 rejected by an always-false
`should_cache_fn` is returned but not stored; in the two-key run the value
1 for "a" is rejected (while 2 for "b" is cached) and still returned. -/
theorem claim_C5_witness :
    regionC5.is_cache_miss (lookupKey worldC5.store (regionC5.mangleKey "k")) =
      true ∧
    ((Region.get_or_create regionC5 worldC5 "k" (fun _ => 5) none
        (some (fun _ => false))).1 = Except.ok 5 ∧
     (Region.get_or_create regionC5 worldC5 "k" (fun _ => 5) none
        (some (fun _ => false))).2.store = worldC5.store) ∧
    ((Region.get_or_create_multi regionC5 worldC5 ["a", "b"] (fun _ => [1, 2])
        none (some (fun v => decide (v = 2)))).1 =
      Except.ok [some 1, some 2] ∧
     lookupKey (Region.get_or_create_multi regionC5 worldC5 ["a", "b"]
        (fun _ => [1, 2]) none (some (fun v => decide (v = 2)))).2.store "a" =
      none) := by
  have h := claim_C5 regionC5 worldC5 "k" (fun _ => 5) none (fun _ => false)
    rfl rfl rfl
  exact ⟨rfl, h.1,
    h.2 "a" "b" 1 2 (fun _ => [1, 2]) none (fun v => decide (v = 2)) worldC5
      regionC5 rfl rfl (by decide) (by decide) rfl rfl (by decide)⟩

lemma lookup_setKey {σ : Type} (st : List (String × σ)) (k q : String) (v : σ) :
    lookupKey (setKey st k v) q = if q = k then some v else lookupKey st q := by
  induction st with
  | nil =>
    by_cases hq : q = k
    · subst hq; simp [setKey, lookupKey]
    · have hkq : ¬(k = q) := fun h => hq h.symm
      simp [setKey, lookupKey, hq, hkq]
  | cons p rest ih =>
    obtain ⟨pk, pv⟩ := p
    simp only [setKey]
    by_cases hpk : pk = k
    · subst hpk
      simp only [if_pos rfl, lookupKey]
      by_cases hq : pk = q
      · subst hq; simp
      · have hqpk : ¬(q = pk) := fun h => hq h.symm
        simp [hq, hqpk]
    · simp only [if_neg hpk, lookupKey, ih]
      by_cases hq : pk = q
      · subst hq
        simp [hpk, fun h : pk = k => hpk h]
      · simp [hq]

lemma lookup_foldl_setKey {σ : Type} (pairs : List (String × σ)) :
    ∀ (st : List (String × σ)) (k : String) (cv : σ),
      lookupKey (pairs.foldl (fun s kv => setKey s kv.1 kv.2) st) k = some cv →
      cv ∈ pairs.map Prod.snd ∨ lookupKey st k = some cv := by
  induction pairs with
  | nil => intro st k cv h; exact Or.inr h
  | cons p rest ih =>
    intro st k cv h
    rcases ih (setKey st p.1 p.2) k cv h with hmem | hlook
    · exact Or.inl (by simp [hmem])
    · rw [lookup_setKey] at hlook
      by_cases hk : k = p.1
      · rw [if_pos hk] at hlook
        exact Or.inl (by simp [Option.some.inj hlook.symm])
      · rw [if_neg hk] at hlook
        exact Or.inr hlook

/-- C2 (amended): `set_multi` stamps every envelope it persists with the
single shared `_gen_metadata()` record — any entry of the store after a
non-empty `set_multi` either carries the shared `(ct, v)` record or was
already stored before.  `get_or_create_multi`, in contrast, wraps each
newly created value through its own `_value` call, so each created
envelope carries its own clock reading (consecutive readings `tick+2` and
`tick+3` in the two-key run): the creation timestamps agree only when
those clock readings happen to coincide. -/
theorem claim_C2_amended {α : Type} :
    (∀ (r : Region α) (w : World (CachedValue α)) (mapping : List (String × α)),
      mapping ≠ [] →
      ∀ (k : String) (cv : CachedValue α),
        lookupKey (Region.set_multi r w mapping).store k = some cv →
        cv.metadata = ⟨w.clock w.tick, value_version⟩ ∨
        lookupKey w.store k = some cv) ∧
    (∀ (r : Region α) (w : World (CachedValue α)) (a b : String) (va vb : α)
       (creator : List String → List α) (exp : Option Time),
      r.key_mangler = none →
      r.region_invalidator.was_soft_invalidated = false →
      a ≠ b → strLe a b = true → w.store = [] → creator [a, b] = [va, vb] →
      lookupKey (Region.get_or_create_multi r w [a, b] creator exp none).2.store
          a = some ⟨va, ⟨w.clock (w.tick + 2), value_version⟩⟩ ∧
      lookupKey (Region.get_or_create_multi r w [a, b] creator exp none).2.store
          b = some ⟨vb, ⟨w.clock (w.tick + 3), value_version⟩⟩) := by
  constructor
  · intro r w mapping hne k cv h
    rw [Region.set_multi, if_neg (by simpa using hne)] at h
    simp only [timeTick, backendSetMulti] at h
    rcases lookup_foldl_setKey _ _ _ _ h with hmem | hlook
    · left
      simp only [List.map_map, List.mem_map] at hmem
      obtain ⟨kv, _, hkv⟩ := hmem
      simp [Function.comp] at hkv
      rw [hkv.symm]
    · exact Or.inr hlook
  · intro r w a b va vb creator exp hkm hsoft hne hab hst hcr
    have h := get_or_create_multi_two_key r w a b va vb creator exp none
      hkm hsoft hne hab hst hcr
    rw [h.2]
    have hba : ¬(b = a) := fun hx => hne hx.symm
    constructor <;> simp [setKey, lookupKey, hne, hba]

def regionC2 : Region Int := ⟨none, none, DefaultInvalidationStrategy.init⟩

def worldC2 : World (CachedValue Int) := ⟨[], 0, fun n => (n : ℚ), [], []⟩

/-- Counterexample to C2 as stated: on an empty backend (clock stream
`0, 1, 2, ...`), `get_or_create_multi(["a", "b"], ...)` regenerates both
keys, and the two freshly persisted envelopes carry the distinct creation
timestamps `2` and `3` — each `_value` call took its own `time.time()`
reading, so the envelopes of one multi-key regeneration do not share one
`ct`. -/
theorem claim_C2_counterexample :
    lookupKey (Region.get_or_create_multi regionC2 worldC2 ["a", "b"]
        (fun _ => [10, 20]) none none).2.store "a" =
      some ⟨10, ⟨2, value_version⟩⟩ ∧
    lookupKey (Region.get_or_create_multi regionC2 worldC2 ["a", "b"]
        (fun _ => [10, 20]) none none).2.store "b" =
      some ⟨20, ⟨3, value_version⟩⟩ ∧
    (2 : Time) ≠ (3 : Time) := by
  have h := (claim_C2_amended (α := Int)).2 regionC2 worldC2 "a" "b" 10 20
    (fun _ => [10, 20]) none rfl rfl (by decide) (by decide) rfl rfl
  refine ⟨?_, ?_, by norm_num⟩
  · rw [h.1]; norm_num [worldC2]
  · rw [h.2]; norm_num [worldC2]

def mappingC2 : List (String × Int) := [("x", 1), ("y", 2)]

/-- Witness for the amended C2: after `set_multi({"x": 1, "y": 2})` on an
empty backend both stored envelopes carry the one shared creation
timestamp `0` (the single `_gen_metadata` reading). -/
theorem claim_C2_amended_witness :
    mappingC2 ≠ [] ∧
    lookupKey (Region.set_multi regionC2 worldC2 mappingC2).store "x" =
      some ⟨1, ⟨0, value_version⟩⟩ ∧
    ((⟨1, ⟨0, value_version⟩⟩ : CachedValue Int).metadata =
        ⟨worldC2.clock worldC2.tick, value_version⟩ ∨
      lookupKey worldC2.store "x" = some ⟨1, ⟨0, value_version⟩⟩) := by
  have hlook : lookupKey (Region.set_multi regionC2 worldC2 mappingC2).store "x" =
      some ⟨1, ⟨0, value_version⟩⟩ := by
    simp [Region.set_multi, mappingC2, timeTick, backendSetMulti, setKey,
      lookupKey, regionC2, worldC2, Region.mangleKey, mangleOpt]
  exact ⟨by simp [mappingC2],  hlook,
    (claim_C2_amended (α := Int)).1 regionC2 worldC2 mappingC2
      (by simp [mappingC2]) "x" ⟨1, ⟨0, value_version⟩⟩ hlook⟩

/-! ### Round-trip facts for the JSON metadata codec -/

/-- The remainder after a JSON number never starts with a digit in the
encoded grammar (a `", "` or the closing brace follows). -/
def nonDigitStart : Bytes → Bool
  | [] => true
  | c :: _ => !(isDigitCh c)

lemma digitVal_digitChar (d : Nat) (hd : d < 10) : digitVal (digitChar d) = d := by
  interval_cases d <;> decide

lemma isDigitCh_digitChar (d : Nat) (hd : d < 10) : isDigitCh (digitChar d) = true := by
  interval_cases d <;> decide

lemma natDigitsAux_all_digits (fuel : Nat) :
    ∀ n, n < fuel → (natDigitsAux fuel n).all isDigitCh = true := by
  induction fuel with
  | zero => intro n h; omega
  | succ f ih =>
    intro n _
    simp only [natDigitsAux]
    by_cases h : n < 10
    · simp [h, isDigitCh_digitChar n h]
    · have hdiv : n / 10 < f := by
        have h1 : n / 10 < n := Nat.div_lt_self (by omega) (by omega)
        omega
      rw [if_neg h]
      simp [List.all_append, ih (n / 10) hdiv,
        isDigitCh_digitChar (n % 10) (Nat.mod_lt n (by omega))]

lemma natDigits_all_digits (n : Nat) : (natDigits n).all isDigitCh = true :=
  natDigitsAux_all_digits (n + 1) n (by omega)

lemma natDigits_ne_nil (n : Nat) : natDigits n ≠ [] := by
  unfold natDigits natDigitsAux
  by_cases h : n < 10
  · simp [h]
  · simp [h]

lemma parseNatAux_append (ds : Bytes) :
    ∀ (acc : Nat) (rest : Bytes), ds.all isDigitCh = true →
      nonDigitStart rest = true →
      parseNatAux (ds ++ rest) acc =
        (ds.foldl (fun a c => 10 * a + digitVal c) acc, rest) := by
  induction ds with
  | nil =>
    intro acc rest _ hrest
    cases rest with
    | nil => rfl
    | cons c tl =>
      simp only [nonDigitStart, Bool.not_eq_true'] at hrest
      simp [parseNatAux, hrest]
  | cons c tl ih =>
    intro acc rest hall hrest
    simp only [List.all_cons, Bool.and_eq_true] at hall
    simp [parseNatAux, hall.1, ih _ _ hall.2 hrest]

lemma natDigitsAux_foldl (fuel : Nat) :
    ∀ n, n < fuel → ∀ acc : Nat,
      (natDigitsAux fuel n).foldl (fun a c => 10 * a + digitVal c) acc =
        acc * 10 ^ (natDigitsAux fuel n).length + n := by
  induction fuel with
  | zero => intro n h; omega
  | succ f ih =>
    intro n _ acc
    simp only [natDigitsAux]
    by_cases h : n < 10
    · simp [h, digitVal_digitChar n h]
      omega
    · have hdiv : n / 10 < f := by
        have h1 : n / 10 < n := Nat.div_lt_self (by omega) (by omega)
        omega
      rw [if_neg h]
      simp only [List.foldl_append, List.foldl_cons, List.foldl_nil,
        List.length_append, List.length_cons, List.length_nil]
      rw [ih (n / 10) hdiv acc]
      rw [digitVal_digitChar (n % 10) (Nat.mod_lt n (by omega))]
      have hmod : 10 * (n / 10) + n % 10 = n := by omega
      ring_nf
      omega

lemma natDigits_foldl (n : Nat) :
    ∀ acc : Nat, (natDigits n).foldl (fun a c => 10 * a + digitVal c) acc =
      acc * 10 ^ (natDigits n).length + n :=
  natDigitsAux_foldl (n + 1) n (by omega)

lemma parseNum_natDigits (n : Nat) (rest : Bytes)
    (hrest : nonDigitStart rest = true) :
    parseNum (natDigits n ++ rest) = some (n, rest) := by
  obtain ⟨c, cs, hcs⟩ : ∃ c cs, natDigits n = c :: cs := by
    cases h : natDigits n with
    | nil => exact absurd h (natDigits_ne_nil n)
    | cons c cs => exact ⟨c, cs, rfl⟩
  have hall := natDigits_all_digits n
  rw [hcs] at hall
  simp only [List.all_cons, Bool.and_eq_true] at hall
  have hfold := natDigits_foldl n 0
  rw [hcs] at hfold
  simp only [List.foldl_cons, Nat.mul_zero, Nat.zero_add, Nat.zero_mul] at hfold
  rw [hcs]
  simp only [List.cons_append, parseNum, hall.1, if_true]
  rw [parseNatAux_append cs (digitVal c) rest hall.2 hrest, hfold]

lemma parseStrAux_round (s : List Char) (rest : Bytes)
    (hs : ∀ c ∈ s, ¬(c = quoteChar)) :
    parseStrAux (s ++ quoteChar :: rest) = some (s, rest) := by
  induction s with
  | nil => simp [parseStrAux]
  | cons c tl ih =>
    have hc := hs c (by simp)
    simp [parseStrAux, hc, ih (fun x hx => hs x (by simp [hx]))]

lemma strOk_no_quote (s : String) (h : strOk s = true) :
    ∀ c ∈ s.data, ¬(c = quoteChar) := by
  intro c hc hq
  simp only [strOk, List.all_eq_true] at h
  have h2 := h c hc
  rw [hq] at h2
  simp [quoteChar] at h2

lemma isDigitCh_ne_quote (c : Char) (h : isDigitCh c = true) : ¬(c = quoteChar) := by
  intro hq
  rw [hq] at h
  simp [isDigitCh, quoteChar] at h

lemma parseVal_round (v : MVal) (rest : Bytes) (hv : valOk v = true)
    (hrest : nonDigitStart rest = true) :
    parseVal (encVal v ++ rest) = some (v, rest) := by
  cases v with
  | num n =>
    obtain ⟨c, cs, hcs⟩ : ∃ c cs, natDigits n = c :: cs := by
      cases h : natDigits n with
      | nil => exact absurd h (natDigits_ne_nil n)
      | cons c cs => exact ⟨c, cs, rfl⟩
    have hall := natDigits_all_digits n
    rw [hcs] at hall
    simp only [List.all_cons, Bool.and_eq_true] at hall
    have hpn := parseNum_natDigits n rest hrest
    rw [hcs] at hpn
    simp only [List.cons_append, parseNum, hall.1, if_true] at hpn
    have hdigits := Option.some.inj hpn
    simp only [encVal, hcs, List.cons_append, parseVal,
      isDigitCh_ne_quote c hall.1, if_false, hall.1, if_true]
    rw [hdigits]
  | str s =>
    simp only [encVal, List.cons_append, List.append_assoc, List.cons_append,
      List.nil_append, parseVal, if_pos rfl]
    rw [parseStrAux_round s.data rest (strOk_no_quote s (by simpa [valOk] using hv))]
    simp

lemma parseField_round (k : String) (v : MVal) (rest : Bytes)
    (hk : strOk k = true) (hv : valOk v = true)
    (hrest : nonDigitStart rest = true) :
    parseField (encField (k, v) ++ rest) = some ((k, v), rest) := by
  have hassoc :
      encField (k, v) ++ rest =
        quoteChar :: (k.data ++ quoteChar :: (':' :: ' ' :: (encVal v ++ rest))) := by
    simp [encField, List.append_assoc]
  rw [hassoc]
  simp only [parseField, if_pos rfl]
  rw [parseStrAux_round k.data _ (strOk_no_quote k hk)]
  simp only [and_self, if_pos, if_true]
  rw [parseVal_round v rest hv hrest]

lemma encField_eq_cons (kv : String × MVal) :
    ∃ cs, encField kv = quoteChar :: cs :=
  ⟨kv.1.data ++ [quoteChar, ':', ' '] ++ encVal kv.2, rfl⟩

lemma encFields_length_ge (md : MetaJson) : md.length ≤ (encFields md).length := by
  induction md with
  | nil => simp [encFields]
  | cons kv tl ih =>
    cases tl with
    | nil =>
      obtain ⟨cs, hcs⟩ := encField_eq_cons kv
      show (kv :: []).length ≤ (encField kv).length
      rw [hcs]
      simp
    | cons kv2 tl2 =>
      show (kv :: kv2 :: tl2).length ≤
        (encField kv ++ [',', ' '] ++ encFields (kv2 :: tl2)).length
      obtain ⟨cs, hcs⟩ := encField_eq_cons kv
      rw [hcs]
      simp only [List.length_append, List.length_cons]
      simp only [List.length_cons] at ih
      omega

lemma commaNonDigit (r : Bytes) : nonDigitStart (',' :: r) = true := by
  simp [nonDigitStart, isDigitCh]

lemma rbraceNonDigit : nonDigitStart [rbraceChar] = true := by
  simp [nonDigitStart, isDigitCh, rbraceChar]

lemma parseFieldsAux_round (md : MetaJson) :
    ∀ (fuel : Nat), metaOk md = true → md ≠ [] → md.length ≤ fuel →
      parseFieldsAux fuel (encFields md ++ [rbraceChar]) =
        some (md, [rbraceChar]) := by
  induction md with
  | nil => intro fuel _ h _; exact absurd rfl h
  | cons kv tl ih =>
    intro fuel hok _ hlen
    simp only [List.length_cons] at hlen
    obtain ⟨f, rfl⟩ : ∃ f, fuel = f + 1 := ⟨fuel - 1, by omega⟩
    have hkv : strOk kv.1 = true ∧ valOk kv.2 = true := by
      simp only [metaOk, List.all_cons, Bool.and_eq_true] at hok
      exact hok.1
    have htl : metaOk tl = true := by
      simp only [metaOk, List.all_cons, Bool.and_eq_true] at hok
      exact hok.2
    cases tl with
    | nil =>
      show parseFieldsAux (f + 1) (encField kv ++ [rbraceChar]) = _
      simp only [parseFieldsAux]
      obtain ⟨k, v⟩ := kv
      rw [parseField_round k v [rbraceChar] hkv.1 hkv.2 rbraceNonDigit]
    | cons kv2 tl2 =>
      show parseFieldsAux (f + 1)
        (encField kv ++ [',', ' '] ++ encFields (kv2 :: tl2) ++ [rbraceChar]) = _
      have hshape :
          encField kv ++ [',', ' '] ++ encFields (kv2 :: tl2) ++ [rbraceChar] =
            encField kv ++ (',' :: ' ' :: (encFields (kv2 :: tl2) ++ [rbraceChar])) := by
        simp [List.append_assoc]
      rw [hshape]
      simp only [parseFieldsAux]
      obtain ⟨k, v⟩ := kv
      rw [parseField_round k v _ hkv.1 hkv.2 (commaNonDigit _)]
      simp only [and_self, if_pos, if_true]
      rw [ih f htl (by simp) (by simp only [List.length_cons] at hlen ⊢; omega)]

lemma quote_ne_rbrace : ¬(quoteChar = rbraceChar) := by decide

lemma jsonDecode_jsonEncode (md : MetaJson) (hok : metaOk md = true) :
    jsonDecode (jsonEncode md) = some md := by
  cases md with
  | nil => rfl
  | cons kv tl =>
    have hhead : ∃ cs, encFields (kv :: tl) = quoteChar :: cs := by
      cases tl with
      | nil =>
        obtain ⟨cs, hcs⟩ := encField_eq_cons kv
        exact ⟨cs, by simp [encFields, hcs]⟩
      | cons kv2 tl2 =>
        obtain ⟨cs, hcs⟩ := encField_eq_cons kv
        exact ⟨cs ++ [',', ' '] ++ encFields (kv2 :: tl2),
          by simp [encFields, hcs]⟩
    obtain ⟨cs, hcs⟩ := hhead
    have hlen : (kv :: tl).length ≤ (encFields (kv :: tl) ++ [rbraceChar]).length := by
      have h0 := encFields_length_ge (kv :: tl)
      simp only [List.length_cons] at h0
      simp only [List.length_append, List.length_cons, List.length_nil]
      omega
    have hround := parseFieldsAux_round (kv :: tl)
      ((encFields (kv :: tl) ++ [rbraceChar]).length) hok (by simp) hlen
    simp only [jsonEncode, jsonDecode, if_pos rfl]
    rw [hcs] at hround ⊢
    simp only [List.cons_append] at hround ⊢
    simp only [quote_ne_rbrace, if_false]
    rw [hround]
    simp

lemma partitionPipe_append (A B : Bytes) (h : noPipe A = true) :
    partitionPipe (A ++ pipeChar :: B) = (A, B) := by
  induction A with
  | nil => simp [partitionPipe]
  | cons c tl ih =>
    simp only [noPipe, List.all_cons, Bool.and_eq_true] at h
    have hc : ¬(c = pipeChar) := by
      have h1 := h.1
      simp at h1
      exact h1
    have ih2 := ih (by simpa [noPipe] using h.2)
    simp [partitionPipe, hc, ih2]

/-- C6 (amended): with a serializer/deserializer pair satisfying
`deserializer(serializer(p)) = p`, the encoded envelope is
`json_encode(metadata) + 0x7C + serializer(payload)` and decoding splits at
the first pipe byte, so the round trip restores the payload and the
metadata field-for-field — including extra opaque keys and even when the
serialized payload contains pipe bytes — **provided** the JSON encoding of
the metadata contains no pipe byte.  (When a metadata string contains a
pipe, the split truncates the JSON prefix and decoding fails; see the
counterexample.) -/
theorem claim_C6_amended {α : Type} (serializer : α → Bytes)
    (deserializer : Bytes → Except DeserFail α) (p : α) (md : MetaJson)
    (hser : deserializer (serializer p) = Except.ok p)
    (hok : metaOk md = true)
    (hnp : noPipe (jsonEncode md) = true) :
    parse_serialized_elements deserializer
      (some (serialize_cached_value_elements serializer p md)) =
      Except.ok (some (p, md)) := by
  simp only [parse_serialized_elements, serialize_cached_value_elements]
  rw [partitionPipe_append (jsonEncode md) (serializer p) hnp]
  simp only [jsonDecode_jsonEncode md hok, hser]

deriving instance DecidableEq for Except

def mdC6 : MetaJson := [("ct", MVal.num 1), ("v", MVal.num 2), ("x", MVal.str "a|b")]

def payloadC6 : Bytes := ['P']

def idSer : Bytes → Bytes := fun b => b

def idDeser : Bytes → Except DeserFail Bytes := fun b => Except.ok b

/-- Counterexample to C6 as stated: the metadata
`{"ct": 1, "v": 2, "x": "a|b"}` is JSON-representable (an extra opaque
string key containing a pipe) and the identity serializer round-trips every
payload, yet decoding the encoded envelope fails — `partition` splits
inside the metadata's `"a|b"`, leaving a truncated JSON prefix — instead
of restoring the payload and metadata. -/
theorem claim_C6_counterexample :
    idDeser (idSer payloadC6) = Except.ok payloadC6 ∧
    parse_serialized_elements idDeser
      (some (serialize_cached_value_elements idSer payloadC6 mdC6)) =
      Except.error RegionError.jsonLoads ∧
    (Except.error RegionError.jsonLoads ≠
      (Except.ok (some (payloadC6, mdC6)) :
        Except RegionError (Option (Bytes × MetaJson)))) := by
  refine ⟨rfl, by decide, by simp⟩

def mdC6w : MetaJson := [("ct", MVal.num 1), ("v", MVal.num 2)]

def payloadC6w : Bytes := ['A', '|', 'B']

/-- Witness for the amended C6 at the standard `ct`/`v` metadata and a
payload whose serialized form contains a pipe byte: the round trip
restores both. -/
theorem claim_C6_amended_witness :
    idDeser (idSer payloadC6w) = Except.ok payloadC6w ∧
    metaOk mdC6w = true ∧
    noPipe (jsonEncode mdC6w) = true ∧
    parse_serialized_elements idDeser
      (some (serialize_cached_value_elements idSer payloadC6w mdC6w)) =
      Except.ok (some (payloadC6w, mdC6w)) := by
  refine ⟨rfl, by decide, by decide, ?_⟩
  exact claim_C6_amended idSer idDeser payloadC6w mdC6w rfl (by decide) (by decide)

/-- C4: with a deserializer configured, a backend read whose deserializer
call raises the declared `CantDeserializeException` is treated as
`NO_VALUE` — so `get_or_create` proceeds to regeneration, returning the
creator's value with no exception reaching the caller — while any other
deserializer exception propagates out of `get_or_create`. -/
theorem claim_C4 {α : Type} (r : SerRegion α) (w : World Bytes) (key : String)
    (creator : Unit → α) (exp : Option Time) (b : Bytes) (md : Metadata)
    (hlook : lookupKey w.store (r.mangleKey key) = some b)
    (hmd : jsonDecodeMeta (partitionPipe b).1 = Except.ok md)
    (hsoft : r.region_invalidator.was_soft_invalidated = false) :
    (r.deserializer (partitionPipe b).2 = Except.error DeserFail.cantDeserialize →
      r.parse_serialized_from_backend (some b) = Except.ok none ∧
      (SerRegion.get_or_create r w key creator exp none).1 =
        Except.ok (creator ())) ∧
    (∀ msg,
      r.deserializer (partitionPipe b).2 = Except.error (DeserFail.raised msg) →
      (SerRegion.get_or_create r w key creator exp none).1 =
        Except.error (RegionError.deserializerRaised msg)) := by
  constructor
  · intro hdeser
    have hparse : r.parse_serialized_from_backend (some b) =
        Except.ok (none : Option (CachedValue α)) := by
      simp only [SerRegion.parse_serialized_from_backend, hmd, hdeser]
    refine ⟨hparse, ?_⟩
    unfold SerRegion.get_or_create dogpileLock SerRegion.getValueFn
      SerRegion.get_from_backend
    simp only [backendGet, hlook, hparse, getValueCore, SerRegion.is_cache_miss,
      if_true]
    unfold dogpileGen SerRegion.genValueFn
    simp only [timeTick, mutexAcquire, hsoft, Bool.false_eq_true, and_false,
      if_false, mutexRelease, shouldCache, backendSet]
  · intro msg hdeser
    have hparse : r.parse_serialized_from_backend (some b) =
        Except.error (RegionError.deserializerRaised msg) := by
      simp only [SerRegion.parse_serialized_from_backend, hmd, hdeser]
    unfold SerRegion.get_or_create dogpileLock SerRegion.getValueFn
      SerRegion.get_from_backend
    simp only [backendGet, hlook, hparse]

def deserC4 : Bytes → Except DeserFail Int := fun b =>
  match b with
  | ['G'] => Except.ok 1
  | ['X'] => Except.error DeserFail.cantDeserialize
  | _ => Except.error (DeserFail.raised "boom")

def regionC4 : SerRegion Int :=
  ⟨none, none, DefaultInvalidationStrategy.init, fun _ => ['G'], deserC4⟩

def bytesC4 : Bytes := jsonEncode [("ct", MVal.num 1), ("v", MVal.num 2)] ++ pipeChar :: ['X']

def bytesC4bad : Bytes := jsonEncode [("ct", MVal.num 1), ("v", MVal.num 2)] ++ pipeChar :: ['Z']

def worldC4 : World Bytes := ⟨[("k", bytesC4)], 0, fun _ => 0, [], []⟩

def worldC4bad : World Bytes := ⟨[("k", bytesC4bad)], 0, fun _ => 0, [], []⟩

/-- Witness for C4: a stored envelope whose payload bytes the deserializer
rejects with `CantDeserializeException` is read as `NO_VALUE` and
`get_or_create` returns the freshly created value `5`; with payload bytes
triggering a different deserializer exception, that exception surfaces. -/
theorem claim_C4_witness :
    lookupKey worldC4.store (regionC4.mangleKey "k") = some bytesC4 ∧
    jsonDecodeMeta (partitionPipe bytesC4).1 = Except.ok ⟨1, 2⟩ ∧
    regionC4.deserializer (partitionPipe bytesC4).2 =
      Except.error DeserFail.cantDeserialize ∧
    (regionC4.parse_serialized_from_backend (some bytesC4) =
        (Except.ok none : Except RegionError (Option (CachedValue Int))) ∧
      (SerRegion.get_or_create regionC4 worldC4 "k" (fun _ => 5) none none).1 =
        Except.ok 5) ∧
    (SerRegion.get_or_create regionC4 worldC4bad "k" (fun _ => 5) none none).1 =
      Except.error (RegionError.deserializerRaised "boom") := by
  refine ⟨rfl, by decide, by decide, ?_, ?_⟩
  · exact (claim_C4 regionC4 worldC4 "k" (fun _ => 5) none bytesC4 ⟨1, 2⟩
      rfl (by decide) rfl).1 (by decide)
  · exact (claim_C4 regionC4 worldC4bad "k" (fun _ => 5) none bytesC4bad ⟨1, 2⟩
      rfl (by decide) rfl).2 "boom" (by decide)
